import Mathlib

/-!
Verification development for the CTO-impressor travel-suggestion engine.

The JavaScript front-end sources are embedded directly (entity parser,
suggestion formatting, input display).  The rule-based back-end engine
(intent classifier, slot resolver, suggestion generator, cache, HTTP
handler) is documented in the repository but its Python sources are not
part of the tree; those components are modelled from the specification,
as marked on each definition.

Strings are treated over their character sequences; character-level
operations mirror the JavaScript semantics on the ASCII range used by
the vocabulary tables.
-/

namespace Impressor

/-- Lower-casing a string character by character (JavaScript
`toLowerCase` on the ASCII range). -/
def lowerStr (s : String) : String := ⟨s.data.map Char.toLower⟩

/-- Removing leading and trailing whitespace from a character list. -/
def trimChars (l : List Char) : List Char :=
  ((l.dropWhile Char.isWhitespace).reverse.dropWhile Char.isWhitespace).reverse

/-- JavaScript `trim` over the character sequence. -/
def trimStr (s : String) : String := ⟨trimChars s.data⟩

/-- Splits a character list into maximal non-whitespace runs.  The first
argument accumulates the current run in reverse. -/
def tokenizeAux : List Char → List Char → List (List Char)
  | [], cur => if cur.isEmpty then [] else [cur.reverse]
  | c :: rest, cur =>
    if Char.isWhitespace c then
      if cur.isEmpty then tokenizeAux rest [] else cur.reverse :: tokenizeAux rest []
    else tokenizeAux rest (c :: cur)

/-- Tokens of a query: maximal non-whitespace runs (empty list for a
whitespace-only string). -/
def tokensOf (s : String) : List String := (tokenizeAux s.data []).map (fun l => ⟨l⟩)

/-- JavaScript-style word split: `s.trim().split(/\s+/)`.
On a whitespace-only string JavaScript returns the singleton list
holding the empty string, which the sources rely on via `words[0]`. -/
def jsWords (s : String) : List String :=
  if (trimStr s).data.isEmpty then [""] else tokensOf s

/-- Does the character list `s` start with the character list `pre`? -/
def charsStart : List Char → List Char → Bool
  | _, [] => true
  | [], _ :: _ => false
  | c :: cs, d :: ds => c == d && charsStart cs ds

/-- JavaScript `startsWith` over character sequences. -/
def strStarts (s pre : String) : Bool := charsStart s.data pre.data

/-- JavaScript `endsWith` over character sequences. -/
def strEnds (s suf : String) : Bool := charsStart s.data.reverse suf.data.reverse

/-- The slot-keyword candidate set used by the front-end formatting code
(`prefixCandidates` in the source). -/
def kwCandidates : List String :=
  ["from", "to", "on", "at", "in", "with", "for", "check-in", "check-out"]

/-- Embeds `formatSuggestionWithPlaceholder` from the front-end App
component: decides whether to prepend the placeholder's leading keyword
to a suggestion before inserting it into the query. -/
def formatSuggestionWithPlaceholder (suggestionText : String)
    (placeholderOpt : Option String) (currentQuery : String) : String :=
  match placeholderOpt with
  | none => suggestionText
  | some placeholderText =>
    if placeholderText = "" then suggestionText else
    let placeholderWords := jsWords placeholderText
    let placeholderFirst := lowerStr (placeholderWords.headD "")
    if placeholderFirst = "" ∨ placeholderFirst ∉ kwCandidates then suggestionText else
    let suggestionLower := trimStr (lowerStr suggestionText)
    if strStarts suggestionLower (placeholderFirst ++ " ") then suggestionText else
    let queryLower := trimStr (lowerStr currentQuery)
    let queryWords := jsWords queryLower
    let lastWord := queryWords.getLastD ""
    if lastWord ∈ kwCandidates ∧ lastWord ≠ placeholderFirst then suggestionText else
    if placeholderFirst = "check-in" ∨ placeholderFirst = "check-out" then
      let baseWord := if placeholderFirst = "check-in" then "checkin" else "checkout"
      if lastWord = placeholderFirst ∨ lastWord = baseWord ∨
          strEnds queryLower (" " ++ placeholderFirst) ∨ strEnds queryLower (" " ++ baseWord) ∨
          strEnds queryLower placeholderFirst ∨ strEnds queryLower baseWord
      then suggestionText
      else placeholderFirst ++ " " ++ suggestionText
    else
      if lastWord = placeholderFirst ∨
          strEnds queryLower (" " ++ placeholderFirst) ∨ strEnds queryLower placeholderFirst
      then suggestionText
      else placeholderFirst ++ " " ++ suggestionText

/-- Lower-cased first word of the placeholder, as the formatting code
computes it (empty string when there is no placeholder). -/
def placeholderFirstOf : Option String → String
  | none => ""
  | some pt => lowerStr ((jsWords pt).headD "")

/-- Last word of the lower-cased trimmed query, as the formatting code
computes it. -/
def lastWordOfQuery (q : String) : String :=
  (jsWords (trimStr (lowerStr q))).getLastD ""

/-- Substring containment over character sequences (used for pattern
tables of the modelled classifier). -/
def containsSub (s pat : String) : Bool :=
  (List.range (s.data.length + 1)).any (fun i => charsStart (s.data.drop i) pat.data)

/-- Modelled from the spec: the closed intent enumeration of the engine
(`rule_engine.py` is not in the tree); `none` is represented by `Option
Intent` at use sites. -/
inductive Intent
  | flight
  | hotel
  | train
  | holiday
deriving DecidableEq

/-- Modelled from the spec: the named slots owned by the intents
(`slot_rules.py` is not in the tree). -/
inductive Slot
  | sIntent
  | sFrom
  | sTo
  | sDate
  | sReturn
  | sTime
  | sClass
  | sAirline
  | sCity
  | sCheckin
  | sCheckout
  | sGuests
  | sRooms
  | sNights
  | sPassengers
  | sQuota
  | sCategory
deriving DecidableEq

/-- Modelled from the spec: wire name of each slot. -/
def slotName : Slot → String
  | .sIntent => "intent"
  | .sFrom => "from"
  | .sTo => "to"
  | .sDate => "date"
  | .sReturn => "return"
  | .sTime => "time"
  | .sClass => "class"
  | .sAirline => "airline"
  | .sCity => "city"
  | .sCheckin => "checkin"
  | .sCheckout => "checkout"
  | .sGuests => "guests"
  | .sRooms => "rooms"
  | .sNights => "nights"
  | .sPassengers => "passengers"
  | .sQuota => "quota"
  | .sCategory => "category"

/-- Modelled from the spec: each intent's fixed required-slot order
(`slot_rules.py` is not in the tree; the order follows the repository
documentation of SLOT_ORDER). -/
def requiredSlots : Intent → List Slot
  | .flight => [.sFrom, .sTo, .sDate, .sTime, .sClass, .sAirline]
  | .hotel => [.sCity, .sCheckin, .sCheckout, .sNights, .sGuests, .sRooms]
  | .train => [.sFrom, .sTo, .sDate, .sClass, .sQuota]
  | .holiday => [.sTo, .sDate, .sNights, .sPassengers]

/-- Modelled from the spec: optional slots per intent. -/
def optionalSlots : Intent → List Slot
  | .flight => [.sReturn, .sPassengers]
  | .hotel => [.sCategory]
  | .train => []
  | .holiday => [.sCategory]

/-- Modelled from the spec: slot keywords a user can type to point at a
slot explicitly. -/
def slotKeywordTable : List (String × Slot) :=
  [("from", .sFrom), ("to", .sTo), ("on", .sDate), ("at", .sTime), ("in", .sCity),
   ("check-in", .sCheckin), ("check-out", .sCheckout)]

/-- Modelled from the spec: the slot named by a keyword, restricted to
the slots the given intent recognises. -/
def keywordSlot (i : Intent) (w : String) : Option Slot :=
  match slotKeywordTable.find? (fun p => p.1 == w) with
  | some p =>
    if p.2 ∈ requiredSlots i ++ optionalSlots i then some p.2 else none
  | none => none

/-- Modelled from the spec: eligibility predicate for optional slots (a
return date is suggested only when the query implies a round trip). -/
def eligibleOptional (s : Slot) (raw : String) : Bool :=
  match s with
  | .sReturn => containsSub (lowerStr raw) "round"
  | _ => true

/-- Modelled from the spec: the Slot Resolver (`slot_rules.py` is not in
the tree).  Step 1 honours an explicit trailing slot keyword, step 2
scans the required order for the first unfilled slot, step 3 tries
eligible unfilled optional slots, step 4 yields none.  The entity bag is
abstracted to the set of slots it fills. -/
def resolve (i : Intent) (filled : List Slot) (raw : String) : Option Slot :=
  match keywordSlot i (lastWordOfQuery raw) with
  | some s => some s
  | none =>
    match (requiredSlots i).find? (fun s => !(decide (s ∈ filled))) with
    | some s => some s
    | none =>
      (optionalSlots i).find? (fun s => !(decide (s ∈ filled)) && eligibleOptional s raw)

/-- Modelled from the spec: the entity bag carried through the pipeline,
with the city values the generator needs and the remaining filled slots
abstracted. -/
structure EntityBag where
  fromCity : Option String
  toCity : Option String
  dateVal : Option String
  otherFilled : List Slot
deriving DecidableEq

/-- Modelled from the spec: an empty entity bag. -/
def emptyBag : EntityBag := ⟨none, none, none, []⟩

/-- Modelled from the spec: which slots a bag fills. -/
def bagFilledSlots (b : EntityBag) : List Slot :=
  (if b.fromCity.isSome then [Slot.sFrom] else []) ++
  (if b.toCity.isSome then [Slot.sTo] else []) ++
  (if b.dateVal.isSome then [Slot.sDate] else []) ++
  b.otherFilled

/-- Modelled from the spec: the immutable per-request match result. -/
structure MatchResult where
  intent : Option Intent
  confidence : Nat
  entities : EntityBag
  next_slot : Option Slot
  match_text : String

/-- Modelled from the spec: one suggestion of a response. -/
structure Suggestion where
  text : String
  entity_type : String
  confidence : Nat
  selectable : Bool
  is_placeholder : Bool
deriving DecidableEq

/-- Modelled from the spec: the fixed slot-to-placeholder-text lookup
table of the Suggestion Generator (`suggestion_generator.py` is not in
the tree; the entries follow the spec examples and the repository
documentation of PLACEHOLDER_MAP). -/
def placeholderFor : Slot → String
  | .sIntent => "what would you like to book"
  | .sFrom => "from where"
  | .sTo => "to where"
  | .sDate => "on which date"
  | .sReturn => "returning on"
  | .sTime => "at what time"
  | .sClass => "in which class"
  | .sAirline => "preferred airline"
  | .sCity => "in which city"
  | .sCheckin => "check-in date"
  | .sCheckout => "check-out date"
  | .sGuests => "for how many guests"
  | .sRooms => "how many rooms"
  | .sNights => "for how many nights"
  | .sPassengers => "for how many passengers"
  | .sQuota => "under which quota"
  | .sCategory => "which category"

/-- Modelled from the spec: the placeholder (ghost) suggestion for a
slot: not selectable, marked as placeholder. -/
def mkPlaceholder (s : Slot) : Suggestion :=
  ⟨placeholderFor s, slotName s, 100, false, true⟩

/-- Modelled from the spec: a selectable suggestion for a slot. -/
def mkSel (s : Slot) (t : String) : Suggestion :=
  ⟨t, slotName s, 90, true, false⟩

/-- Modelled from the spec: date shortcut vocabulary. -/
def dateShortcuts : List String := ["today", "tomorrow", "this weekend", "next week"]

/-- Modelled from the spec: time-of-day buckets. -/
def timeBuckets : List String := ["morning", "afternoon", "evening", "night"]

/-- Modelled from the spec: travel class vocabulary. -/
def travelClasses : List String := ["economy", "premium economy", "business", "first"]

/-- Modelled from the spec: rail quota vocabulary. -/
def quotaNames : List String := ["general", "tatkal", "ladies", "senior citizen"]

/-- Modelled from the spec: hotel/holiday category vocabulary. -/
def categoryNames : List String := ["budget", "3-star", "4-star", "5-star", "luxury"]

/-- Modelled from the spec: numeric range 1..9 for count slots. -/
def countWords : List String := ["1", "2", "3", "4", "5", "6", "7", "8", "9"]

/-- Modelled from the spec: airline name vocabulary (a static reference
list). -/
def airlineNames : List String := ["Air India", "IndiGo", "Vistara", "SpiceJet"]

/-- Modelled from the spec: the selectable vocabulary for a slot, with
places already bound to a conflicting slot excluded (never suggest the
`from` city again for `to`). -/
def selectablePool (places : List String) (bag : EntityBag) : Slot → List String
  | .sFrom => places.filter (fun c => !(decide (bag.toCity = some c)))
  | .sTo => places.filter (fun c => !(decide (bag.fromCity = some c)))
  | .sCity => places
  | .sDate => dateShortcuts
  | .sCheckin => dateShortcuts
  | .sCheckout => dateShortcuts
  | .sReturn => dateShortcuts
  | .sTime => timeBuckets
  | .sClass => travelClasses
  | .sAirline => airlineNames
  | .sQuota => quotaNames
  | .sCategory => categoryNames
  | .sGuests => "family" :: countWords
  | .sPassengers => countWords
  | .sNights => countWords
  | .sRooms => countWords
  | .sIntent => ["flight", "hotel", "train", "holiday"]

/-- Modelled from the spec: the Suggestion Generator
(`suggestion_generator.py` is not in the tree).  When a next slot is
known it emits exactly one placeholder first and then up to 8 selectable
suggestions from the slot's vocabulary; with no next slot the list is
empty. -/
def generate (places : List String) (m : MatchResult) : List Suggestion :=
  match m.next_slot with
  | none => []
  | some s => mkPlaceholder s :: ((selectablePool places m.entities s).take 8).map (mkSel s)

/-- Modelled from the spec: the intent pattern table (`intent_rules.py`
is not in the tree): ordered pattern/confidence pairs per intent, more
specific patterns first with higher confidence. -/
def intentPatterns : List (Intent × List (String × Nat)) :=
  [(.flight, [("book a flight", 95), ("flight", 78), ("fly", 78)]),
   (.hotel, [("book a hotel", 95), ("hotel", 78)]),
   (.train, [("book a train", 95), ("train", 78)]),
   (.holiday, [("book a holiday", 95), ("holiday", 78)])]

/-- Modelled from the spec: trailing phrases marking an incomplete
intent utterance. -/
def incompleteIntent (q : String) : Bool :=
  let t := trimStr (lowerStr q)
  strEnds t "book a" || strEnds t "want to" || strEnds t "book"

/-- Modelled from the spec: the Intent Classifier (`intent_rules.py` is
not in the tree): first matching pattern per intent, best confidence
across intents, acceptance threshold 0.75, none on incomplete
utterances. -/
def classify (q : String) : Option (Intent × Nat × String) :=
  if incompleteIntent q then none
  else
    let ql := lowerStr q
    let cands := intentPatterns.filterMap (fun ip =>
      (ip.2.find? (fun pc => containsSub ql pc.1)).map (fun pc => (ip.1, pc.2, pc.1)))
    let best := cands.foldl (fun acc x =>
      match acc with
      | none => some x
      | some y => if x.2.1 > y.2.1 then some x else some y) none
    match best with
    | some (i, c, p) => if c ≥ 75 then some (i, c, p) else none
    | none => none

/-- Modelled from the spec: the word following a keyword token, skipping
keyword words as values (used by the modelled Entity Extractor). -/
def tokenAfter : List String → String → Option String
  | a :: b :: rest, kw =>
    if lowerStr a == kw && !((slotKeywordTable.map (fun p => p.1)).contains (lowerStr b)) then
      some b
    else tokenAfter (b :: rest) kw
  | _, _ => none

/-- Modelled from the spec: date shortcut words the extractor recognises. -/
def dateWords : List String := ["today", "tomorrow"]

/-- Modelled from the spec: the Entity Extractor at the granularity the
resolver and generator need (`entity_rules.py` is not in the tree):
cities after the from/to keywords and date shortcut words. -/
def extract (q : String) (_i : Intent) : EntityBag :=
  let ts := tokensOf q
  ⟨tokenAfter ts "from", tokenAfter ts "to",
   ts.find? (fun t => dateWords.contains (lowerStr t)), []⟩

/-- Modelled from the spec: place-first inference: a query that is a
single bare known place name. -/
def placeFirstCity (places : List String) (q : String) : Option String :=
  match tokensOf q with
  | [t] => places.find? (fun p => lowerStr p == lowerStr t)
  | _ => none

/-- Modelled from the spec: the response object (latency is not
modelled; the claims hold modulo latency). -/
structure Response where
  suggestions : List Suggestion
  intent : Option Intent
  next_slot : Option Slot
  source : String

/-- Modelled from the spec: the pure pipeline behind the Engine
(`rule_engine.py` is not in the tree): classify, extract, resolve,
generate, with the degenerate partial-intent and place-first matches and
the fallback sentinel. -/
def computeResponse (places : List String) (q : String) : Response :=
  if tokensOf q = [] then ⟨[], none, none, "rule_based"⟩
  else
    match classify q with
    | some (i, c, mt) =>
      let bag := extract q i
      let ns := resolve i (bagFilledSlots bag) q
      ⟨generate places ⟨some i, c, bag, ns, mt⟩, some i, ns, "rule_based"⟩
    | none =>
      if incompleteIntent q then
        ⟨generate places ⟨none, 50, emptyBag, some .sIntent, ""⟩, none, some .sIntent,
          "rule_based"⟩
      else
        match placeFirstCity places q with
        | some c =>
          let bag : EntityBag := ⟨some c, none, none, []⟩
          ⟨generate places ⟨none, 50, bag, some .sTo, ""⟩, none, some .sTo, "rule_based"⟩
        | none => ⟨[], none, none, "fallback_required"⟩

/-- Modelled from the spec: normalised cache key text
(case-normalised, whitespace-collapsed). -/
def normalizeQuery (q : String) : String :=
  String.intercalate " " (tokensOf (lowerStr q))

/-- Modelled from the spec: the cache storage: key, insertion time and
stored response (`cache.py` is not in the tree). -/
abbrev Cache := List (String × Nat × Response)

/-- Modelled from the spec: cache key from context serialisation and
normalised query. -/
def cacheKey (ctx q : String) : String := normalizeQuery q ++ "|" ++ ctx

/-- Modelled from the spec: lazy-expiry read with the fixed 300 second
TTL. -/
def cacheGet (c : Cache) (now : Nat) (k : String) : Option Response :=
  match c.find? (fun e => e.1 == k) with
  | some e => if now < e.2.1 + 300 then some e.2.2 else none
  | none => none

/-- Modelled from the spec: atomic replacement write (newest entry
shadows older ones). -/
def cachePut (c : Cache) (now : Nat) (k : String) (r : Response) : Cache :=
  (k, now, r) :: c

/-- Modelled from the spec: the Engine entry point `handle` wrapped by
the cache.  Malformed or empty queries return the empty response
directly; otherwise a cache hit is served, or the pipeline output is
computed and stored.  The function is total: no input throws. -/
def handle (places : List String) (c : Cache) (now : Nat) (ctx q : String) :
    Response × Cache :=
  if tokensOf q = [] then (⟨[], none, none, "rule_based"⟩, c)
  else
    let k := cacheKey ctx q
    match cacheGet c now k with
    | some r => ({ r with source := "cache" }, c)
    | none =>
      let r := computeResponse places q
      (r, cachePut c now k r)

/-- Embeds the dropdown rendering of the TravelInput component:
`suggestions.slice(0, 8)` is the list of entries displayed. -/
def displayedSuggestions (l : List Suggestion) : List Suggestion := l.take 8

/-- Embeds the number-key branch of `handleKeyDown` in TravelInput: keys
"1" through "8" select the suggestion at index `parseInt(key) - 1`. -/
def digitKeyIndex (c : Char) : Option Nat :=
  if 49 ≤ c.toNat ∧ c.toNat ≤ 56 then some (c.toNat - 49) else none

/-- A regex matcher: at a position in the character sequence it returns
the candidate consumed lengths in backtracking priority order; the head
is the match the JavaScript engine commits to. -/
abbrev Matcher := List Char → Nat → List Nat

/-- JavaScript word character for the boundary assertion `\b`:
`[A-Za-z0-9_]`. -/
def isWordChar (c : Char) : Bool :=
  decide (('a' ≤ c ∧ c ≤ 'z') ∨ ('A' ≤ c ∧ c ≤ 'Z') ∨ ('0' ≤ c ∧ c ≤ '9') ∨ c = '_')

/-- Does the word `w` occur literally at position `i` of `cs`
(case-insensitively when `ci` is set)? -/
def litAt (ci : Bool) : List Char → Nat → List Char → Bool
  | _, _, [] => true
  | cs, i, w :: ws =>
    match cs[i]? with
    | some c => (if ci then c.toLower == w.toLower else c == w) && litAt ci cs (i + 1) ws
    | none => false

/-- Matcher for a literal word. -/
def mLit (ci : Bool) (w : String) : Matcher := fun cs i =>
  if litAt ci cs i w.data then [w.data.length] else []

/-- Ordered alternation of two matchers. -/
def mAlt (a b : Matcher) : Matcher := fun cs i => a cs i ++ b cs i

/-- Ordered alternation of a list of matchers. -/
def mAlts (ms : List Matcher) : Matcher := fun cs i => ms.flatMap (fun m => m cs i)

/-- Sequencing of matchers with full backtracking. -/
def mSeq (a b : Matcher) : Matcher := fun cs i =>
  (a cs i).flatMap (fun n => (b cs (i + n)).map (fun k => n + k))

/-- Matcher for a single character from a class. -/
def mChar (p : Char → Bool) : Matcher := fun cs i =>
  match cs[i]? with
  | some c => if p c then [1] else []
  | none => []

/-- Is the character at a position a word character (out of range counts
as a non-word position)? -/
def wordAt (cs : List Char) (i : Nat) : Bool :=
  match cs[i]? with
  | some c => isWordChar c
  | none => false

/-- JavaScript word-boundary test at a position. -/
def boundaryAt (cs : List Char) (i : Nat) : Bool :=
  (if i = 0 then false else wordAt cs (i - 1)) != wordAt cs i

/-- Matcher for the boundary assertion `\b` (consumes nothing). -/
def mWB : Matcher := fun cs i => if boundaryAt cs i then [0] else []

/-- Length of the longest run of characters satisfying `p` at the head
of the list. -/
def countWhileAux (p : Char → Bool) : List Char → Nat
  | [] => 0
  | c :: t => if p c then countWhileAux p t + 1 else 0

/-- Greedy `+` over a character class: all lengths from longest down
to 1. -/
def mRep1 (p : Char → Bool) : Matcher := fun cs i =>
  (List.range (countWhileAux p (cs.drop i))).map
    (fun j => countWhileAux p (cs.drop i) - j)

/-- Greedy `*` over a character class: all lengths from longest down
to 0. -/
def mRep0 (p : Char → Bool) : Matcher := fun cs i =>
  (List.range (countWhileAux p (cs.drop i) + 1)).map
    (fun j => countWhileAux p (cs.drop i) - j)

/-- Greedy `?` on a matcher. -/
def mOpt (a : Matcher) : Matcher := fun cs i => a cs i ++ [0]

/-- Greedy `*` on a matcher, with fuel bounding the iteration count;
zero-length iterations are not taken. -/
def mStarAux (a : Matcher) : Nat → List Char → Nat → List Nat
  | 0, _, _ => [0]
  | f + 1, cs, i =>
    ((a cs i).filter (fun n => n != 0)).flatMap
      (fun n => (mStarAux a f cs (i + n)).map (fun k => n + k)) ++ [0]

/-- Greedy `*` on a matcher. -/
def mStar (a : Matcher) : Matcher := fun cs i => mStarAux a (cs.length + 1 - i) cs i

/-- Alternation of whole words, case-insensitively. -/
def kwAlt (ws : List String) : Matcher := mAlts (ws.map (mLit true))

/-- A `\b(w1|w2|...)\b` pattern, case-insensitively. -/
def wordPat (ws : List String) : Matcher := mSeq mWB (mSeq (kwAlt ws) mWB)

/-- Matcher for `\s+`. -/
def wsPlus : Matcher := mRep1 Char.isWhitespace

/-- Matcher for `\s*`. -/
def wsStar : Matcher := mRep0 Char.isWhitespace

/-- Matcher for `\d`. -/
def digitCh : Matcher := mChar (fun c => decide ('0' ≤ c ∧ c ≤ '9'))

/-- Matcher for `\d{1,2}` (greedy). -/
def d12 : Matcher := mSeq digitCh (mOpt digitCh)

/-- Matcher for `\d{2,4}` (greedy). -/
def d24 : Matcher := mSeq digitCh (mSeq digitCh (mOpt (mSeq digitCh (mOpt digitCh))))

/-- Matcher for the character class `[\/\-]`. -/
def slashDash : Matcher := mChar (fun c => c == '/' || c == '-')

/-- Matcher for `[A-Z]`. -/
def upperCh : Matcher := mChar (fun c => decide ('A' ≤ c ∧ c ≤ 'Z'))

/-- Matcher for `[a-z]+` (greedy). -/
def lowerPlus : Matcher := mRep1 (fun c => decide ('a' ≤ c ∧ c ≤ 'z'))

/-- Matcher for `[A-Z][a-z]+`. -/
def upperWord : Matcher := mSeq upperCh lowerPlus

/-- Embeds the first intent pattern of `parseEntities`. -/
def intentPat1 : Matcher := wordPat ["flight", "fly", "airline", "airplane"]

/-- Embeds the second intent pattern of `parseEntities`. -/
def intentPat2 : Matcher := wordPat ["hotel", "stay", "accommodation", "room"]

/-- Embeds the third intent pattern of `parseEntities`. -/
def intentPat3 : Matcher := wordPat ["train", "railway", "rail"]

/-- Embeds the fourth intent pattern of `parseEntities`. -/
def intentPat4 : Matcher := wordPat ["holiday", "package", "vacation"]

/-- Embeds the date pattern `\b(today|tomorrow|yesterday)\b`. -/
def datePat1 : Matcher := wordPat ["today", "tomorrow", "yesterday"]

/-- Embeds the date pattern `\b(this|next)\s+(week|weekend|month|year)\b`. -/
def datePat2 : Matcher :=
  mSeq mWB (mSeq (kwAlt ["this", "next"])
    (mSeq wsPlus (mSeq (kwAlt ["week", "weekend", "month", "year"]) mWB)))

/-- Embeds the weekday date pattern. -/
def datePat3 : Matcher :=
  wordPat ["sunday", "monday", "tuesday", "wednesday", "thursday", "friday", "saturday"]

/-- Embeds the month-name date pattern. -/
def datePat4 : Matcher :=
  wordPat ["january", "february", "march", "april", "may", "june", "july", "august",
    "september", "october", "november", "december"]

/-- Embeds the date pattern `\b\d{1,2}\s+(jan|feb|...)\b`. -/
def datePat5 : Matcher :=
  mSeq mWB (mSeq d12 (mSeq wsPlus (mSeq
    (kwAlt ["jan", "feb", "mar", "apr", "may", "jun", "jul", "aug", "sep", "oct", "nov",
      "dec"]) mWB)))

/-- Embeds the numeric date pattern `\b\d{1,2}[\/\-]\d{1,2}[\/\-]\d{2,4}\b`. -/
def datePat6 : Matcher :=
  mSeq mWB (mSeq d12 (mSeq slashDash (mSeq d12 (mSeq slashDash (mSeq d24 mWB)))))

/-- Embeds the time-of-day word pattern. -/
def timePat1 : Matcher := wordPat ["morning", "afternoon", "evening", "night", "midnight", "noon"]

/-- Embeds the clock time pattern `\b\d{1,2}:\d{2}\s*(am|pm)\b`. -/
def timePat2 : Matcher :=
  mSeq mWB (mSeq d12 (mSeq (mLit false ":") (mSeq digitCh (mSeq digitCh
    (mSeq wsStar (mSeq (kwAlt ["am", "pm"]) mWB))))))

/-- Embeds the city pattern `\b(from|to)\s+([A-Z][a-z]+(?:\s+[A-Z][a-z]+)*)\b`
(case-sensitive, as in the source). -/
def cityPat1 : Matcher :=
  mSeq mWB (mSeq (mAlt (mLit false "from") (mLit false "to"))
    (mSeq wsPlus (mSeq upperWord (mSeq (mStar (mSeq wsPlus upperWord)) mWB))))

/-- Embeds the city abbreviation pattern. -/
def cityPat2 : Matcher :=
  wordPat ["NYC", "SFO", "LAX", "JFK", "LHR", "CDG", "DXB", "BOM", "DEL", "BLR", "MAA",
    "CCU", "HYD"]

/-- An entity match of `parseEntities`: the matched text, the pattern
kind, and the span offsets in the original character sequence (the
source field `end` is named `stop`). -/
structure Entity where
  text : List Char
  type : String
  start : Nat
  stop : Nat
deriving DecidableEq

/-- The contiguous slice of a character sequence between two offsets. -/
def slice (cs : List Char) (s e : Nat) : List Char := (cs.drop s).take (e - s)

/-- The repeated `exec` loop of a global JavaScript regex: scan left to
right, commit to the engine's first match at the first matching
position, continue after it.  A zero-length match (impossible for the
patterns above, and a non-terminating loop in the source) is skipped. -/
def findAllAux (m : Matcher) (cs : List Char) : Nat → Nat → List (Nat × Nat)
  | 0, _ => []
  | f + 1, i =>
    if i ≤ cs.length then
      match (m cs i).head? with
      | some n =>
        if n = 0 then findAllAux m cs f (i + 1)
        else (i, i + n) :: findAllAux m cs f (i + n)
      | none => findAllAux m cs f (i + 1)
    else []

/-- All matches of a pattern over a character sequence. -/
def findAll (m : Matcher) (cs : List Char) : List (Nat × Nat) :=
  findAllAux m cs (cs.length + 1) 0

/-- Entities built from the spans of one pattern (`match[0]` of a
JavaScript regex is exactly the matched substring). -/
def matchesToEntities (cs : List Char) (t : String) (ms : List (Nat × Nat)) : List Entity :=
  ms.map (fun p => ⟨slice cs p.1 p.2, t, p.1, p.2⟩)

/-- The pattern table of `parseEntities`, in source order: intent, date,
time, then city patterns. -/
def allPatterns : List (Matcher × String) :=
  [(intentPat1, "intent"), (intentPat2, "intent"), (intentPat3, "intent"),
   (intentPat4, "intent"),
   (datePat1, "date"), (datePat2, "date"), (datePat3, "date"), (datePat4, "date"),
   (datePat5, "date"), (datePat6, "date"),
   (timePat1, "time"), (timePat2, "time"),
   (cityPat1, "city"), (cityPat2, "city")]

/-- The duplicate-span check of `parseEntities`: a new entity is dropped
when an already collected entity has the same start and end. -/
def addEntity (acc : List Entity) (e : Entity) : List Entity :=
  if acc.any (fun x => x.start == e.start && x.stop == e.stop) then acc else acc ++ [e]

/-- Embeds the accumulation loop of `parseEntities` over all patterns. -/
def parseEntitiesRaw (cs : List Char) : List Entity :=
  allPatterns.foldl
    (fun acc pt => (matchesToEntities cs pt.2 (findAll pt.1 cs)).foldl addEntity acc) []

/-- Embeds `parseEntities` from the entity parser utility: collect the
pattern matches with duplicate spans dropped, then sort stably by start
offset (`entities.sort((a, b) => a.start - b.start)`). -/
def parseEntities (cs : List Char) : List Entity :=
  (parseEntitiesRaw cs).insertionSort (fun a b => a.start ≤ b.start)

/-- Soundness predicate for a matcher: within range, a candidate length
never runs past the end of the input. -/
def BndM (m : Matcher) : Prop :=
  ∀ cs i n, i ≤ cs.length → n ∈ m cs i → i + n ≤ cs.length

/-- Progress predicate for a matcher: every candidate consumes at least
one character. -/
def PosM (m : Matcher) : Prop := ∀ cs i n, n ∈ m cs i → 0 < n

instance : IsTotal Entity (fun a b => a.start ≤ b.start) :=
  ⟨fun a b => Nat.le_total a.start b.start⟩

instance : IsTrans Entity (fun a b => a.start ≤ b.start) :=
  ⟨fun _ _ _ h1 h2 => Nat.le_trans h1 h2⟩

end Impressor

namespace Impressor

/-- Claim C10: `formatSuggestionWithPlaceholder` returns either the
suggestion text unchanged, or the placeholder's (lower-cased) first word
followed by a single space and the suggestion text; and it returns the
text unchanged whenever that first word is not a slot keyword from the
candidate set, or the suggestion already starts with it, or the query's
last word is a different keyword from the set. -/
theorem formatSuggestionWithPlaceholder_spec (s : String) (p : Option String) (q : String) :
    (formatSuggestionWithPlaceholder s p q = s ∨
      formatSuggestionWithPlaceholder s p q = placeholderFirstOf p ++ " " ++ s)
    ∧ (placeholderFirstOf p ∉ kwCandidates → formatSuggestionWithPlaceholder s p q = s)
    ∧ (strStarts (trimStr (lowerStr s)) (placeholderFirstOf p ++ " ") = true →
        formatSuggestionWithPlaceholder s p q = s)
    ∧ (lastWordOfQuery q ∈ kwCandidates → lastWordOfQuery q ≠ placeholderFirstOf p →
        formatSuggestionWithPlaceholder s p q = s) := by
  cases p with
  | none => simp [formatSuggestionWithPlaceholder]
  | some pt =>
    simp only [formatSuggestionWithPlaceholder, placeholderFirstOf, lastWordOfQuery]
    split_ifs <;> simp_all

/-- Witness for C10: at a concrete input whose placeholder first word is
not in the candidate set, the theorem yields the unchanged suggestion. -/
theorem formatSuggestionWithPlaceholder_spec_witness :
    formatSuggestionWithPlaceholder "Mumbai" (some "wibble where") "book a flight" = "Mumbai" :=
  (formatSuggestionWithPlaceholder_spec "Mumbai" (some "wibble where") "book a flight").2.1
    (by decide)

theorem find_unfilled_takeWhile (l filled : List Slot) (s : Slot)
    (h : l.find? (fun x => !(decide (x ∈ filled))) = some s) :
    ∀ s' ∈ l.takeWhile (fun x => x != s), s' ∈ filled := by
  induction l with
  | nil => simp at h
  | cons a t ih =>
    by_cases ha : a ∈ filled
    · rw [List.find?_cons_of_neg t (by simp [ha])] at h
      have hs : s ∉ filled := by
        have := List.find?_some h
        simpa using this
      have hne : a ≠ s := fun he => hs (he ▸ ha)
      intro s' hs'
      rw [List.takeWhile_cons_of_pos (by simpa using hne)] at hs'
      rcases List.mem_cons.mp hs' with rfl | hmem
      · exact ha
      · exact ih h s' hmem
    · rw [List.find?_cons_of_pos t (by simp [ha])] at h
      cases h
      intro s' hs'
      rw [List.takeWhile_cons_of_neg (by simp)] at hs'
      simp at hs'

/-- Claim C1 (counterexample): the keyword-override step of the Slot
Resolver returns the `to` slot for a flight with an empty entity bag and
the raw query ending in "to", although `from` is earlier in the required
order and unfilled, violating the slot-order invariant as stated. -/
theorem resolve_slot_order_counterexample :
    resolve .flight [] "book a flight to" = some .sTo
    ∧ Slot.sFrom ∈ (requiredSlots .flight).takeWhile (fun x => x != Slot.sTo)
    ∧ Slot.sFrom ∉ ([] : List Slot) := by
  refine ⟨by decide, by decide, by simp⟩

/-- Claim C1 (amended): when the resolution is not decided by the
explicit trailing-keyword override (step 1), every required slot earlier
than the returned slot in the intent's required order is filled in the
bag. -/
theorem resolve_slot_order_amended (i : Intent) (filled : List Slot) (raw : String) (s : Slot)
    (hkw : keywordSlot i (lastWordOfQuery raw) = none)
    (hres : resolve i filled raw = some s) :
    ∀ s' ∈ (requiredSlots i).takeWhile (fun x => x != s), s' ∈ filled := by
  unfold resolve at hres
  rw [hkw] at hres
  cases hfind : (requiredSlots i).find? (fun x => !(decide (x ∈ filled))) with
  | some s0 =>
    rw [hfind] at hres
    cases hres
    exact find_unfilled_takeWhile _ _ _ hfind
  | none =>
    rw [hfind] at hres
    intro s' hs'
    have hmem : s' ∈ requiredSlots i :=
      (List.takeWhile_sublist _).subset hs'
    have := List.find?_eq_none.mp hfind s' hmem
    simpa using this

/-- Witness for the amended C1 theorem: for "flight from Mumbai" with
the `from` slot filled, the resolver returns `to` by the order scan and
the slot before `to` is indeed filled. -/
theorem resolve_slot_order_amended_witness :
    keywordSlot .flight (lastWordOfQuery "flight from Mumbai") = none
    ∧ resolve .flight [.sFrom] "flight from Mumbai" = some .sTo
    ∧ Slot.sFrom ∈ [Slot.sFrom] :=
  ⟨by decide, by decide,
    resolve_slot_order_amended .flight [.sFrom] "flight from Mumbai" .sTo (by decide)
      (by decide) .sFrom (by decide)⟩

theorem filter_placeholder_map_mkSel (s : Slot) (l : List String) :
    (l.map (mkSel s)).filter (fun x => x.is_placeholder) = [] := by
  induction l with
  | nil => rfl
  | cons a t ih => simp [mkSel, ih]

theorem mem_map_mkSel_fields (s : Slot) (l : List String) :
    ∀ x ∈ l.map (mkSel s), x.is_placeholder = false ∧ x.selectable = true := by
  intro x hx
  rcases List.mem_map.mp hx with ⟨t, _, rfl⟩
  exact ⟨rfl, rfl⟩

/-- Claim C2: every generated suggestion list has at most one
placeholder; every element after the first is selectable and not a
placeholder; and when `next_slot` is non-null there is exactly one
placeholder and it is the first element. -/
theorem generate_placeholder_invariant (places : List String) (m : MatchResult) :
    ((generate places m).filter (fun x => x.is_placeholder)).length ≤ 1
    ∧ (∀ x ∈ (generate places m).drop 1, x.is_placeholder = false ∧ x.selectable = true)
    ∧ (∀ s, m.next_slot = some s →
        ((generate places m).filter (fun x => x.is_placeholder)).length = 1
        ∧ (generate places m).head?.map (fun x => x.is_placeholder) = some true) := by
  cases hns : m.next_slot with
  | none =>
    have hg : generate places m = [] := by unfold generate; rw [hns]
    simp [hg]
  | some s =>
    have hg : generate places m =
        mkPlaceholder s :: ((selectablePool places m.entities s).take 8).map (mkSel s) := by
      unfold generate; rw [hns]
    have hfilter : ((generate places m).filter (fun x => x.is_placeholder)).length = 1 := by
      rw [hg, List.filter_cons_of_pos (by rfl), filter_placeholder_map_mkSel]
      rfl
    refine ⟨le_of_eq hfilter, ?_, ?_⟩
    · rw [hg]
      intro x hx
      rw [List.drop_succ_cons, List.drop_zero] at hx
      exact mem_map_mkSel_fields s _ x hx
    · intro s' hs'
      exact ⟨hfilter, by rw [hg]; rfl⟩

/-- Witness for C2: with a concrete match result whose next slot is
`to`, the generated list has exactly one placeholder, placed first. -/
theorem generate_placeholder_invariant_witness :
    ((generate ["Delhi"] ⟨none, 100, emptyBag, some .sTo, ""⟩).filter
        (fun x => x.is_placeholder)).length = 1
    ∧ (generate ["Delhi"] ⟨none, 100, emptyBag, some .sTo, ""⟩).head?.map
        (fun x => x.is_placeholder) = some true :=
  (generate_placeholder_invariant ["Delhi"] ⟨none, 100, emptyBag, some .sTo, ""⟩).2.2 .sTo rfl

/-- Claim C3: for an empty or whitespace-only (malformed) query,
`handle` returns an empty suggestion list, a null intent and a null next
slot; the function is total, so no such input throws. -/
theorem handle_empty_query (places : List String) (c : Cache) (now : Nat) (ctx q : String)
    (h : tokensOf q = []) :
    (handle places c now ctx q).1.suggestions = []
    ∧ (handle places c now ctx q).1.intent = none
    ∧ (handle places c now ctx q).1.next_slot = none := by
  unfold handle
  rw [if_pos h]
  exact ⟨rfl, rfl, rfl⟩

/-- Witness for C3: the empty string is a malformed query and yields the
empty response. -/
theorem handle_empty_query_witness :
    tokensOf "" = []
    ∧ (handle [] [] 0 "ctx" "").1.suggestions = []
    ∧ (handle [] [] 0 "ctx" "").1.intent = none
    ∧ (handle [] [] 0 "ctx" "").1.next_slot = none := by
  refine ⟨rfl, ?_⟩
  exact handle_empty_query [] [] 0 "ctx" "" rfl

/-- Claim C4: the placeholder lookup table maps `to` to "to where" and
`date` to "on which date", and every match result with next slot `date`
emits "on which date" as the first (placeholder) suggestion text. -/
theorem placeholder_table_spec :
    placeholderFor .sTo = "to where"
    ∧ placeholderFor .sDate = "on which date"
    ∧ ∀ (places : List String) (m : MatchResult), m.next_slot = some .sDate →
        (generate places m).head?.map (fun x => x.text) = some "on which date" := by
  refine ⟨rfl, rfl, ?_⟩
  intro places m h
  have hg : generate places m = mkPlaceholder .sDate ::
      ((selectablePool places m.entities .sDate).take 8).map (mkSel .sDate) := by
    unfold generate; rw [h]
  rw [hg]
  rfl

/-- Witness for C4: a concrete match result with next slot `date` yields
"on which date" as the leading placeholder text. -/
theorem placeholder_table_spec_witness :
    (generate ["x"] ⟨none, 100, emptyBag, some .sDate, ""⟩).head?.map (fun x => x.text) =
      some "on which date" :=
  placeholder_table_spec.2.2 ["x"] ⟨none, 100, emptyBag, some .sDate, ""⟩ rfl

/-- Claim C5: when the next slot is `to` and a place is bound to `from`,
no selectable generated suggestion carries that place as its text. -/
theorem generate_no_self_suggestion (places : List String) (m : MatchResult) (city : String)
    (h1 : m.next_slot = some .sTo) (h2 : m.entities.fromCity = some city) :
    ∀ x ∈ generate places m, x.selectable = true → x.text ≠ city := by
  unfold generate
  rw [h1]
  intro x hx hsel
  rcases List.mem_cons.mp hx with rfl | hmem
  · simp [mkPlaceholder] at hsel
  · rcases List.mem_map.mp hmem with ⟨t, ht, rfl⟩
    have ht' : t ∈ (selectablePool places m.entities .sTo) := List.mem_of_mem_take ht
    have hpred := List.of_mem_filter (p := fun c => !(decide (m.entities.fromCity = some c)))
      (by simpa [selectablePool] using ht')
    intro he
    rw [show (mkSel Slot.sTo t).text = t from rfl] at he
    subst he
    rw [h2] at hpred
    simp at hpred

/-- Witness for C5: with "Mumbai" bound to `from` and next slot `to`,
the selectable suggestion "Delhi" is not the `from` city. -/
theorem generate_no_self_suggestion_witness :
    (mkSel Slot.sTo "Delhi").text ≠ "Mumbai" :=
  generate_no_self_suggestion ["Mumbai", "Delhi"]
    ⟨none, 100, ⟨some "Mumbai", none, none, []⟩, some .sTo, ""⟩ "Mumbai" rfl rfl
    (mkSel Slot.sTo "Delhi") (by decide) rfl

/-- Claim C6: two successive `handle` calls with the same query, context
and vocabulary return identical suggestions, intent and next slot (the
second may be served from the cache; only the source tag may differ). -/
theorem handle_two_calls_deterministic (places : List String) (c : Cache) (now : Nat)
    (ctx q : String) :
    (handle places c now ctx q).1.suggestions =
      (handle places (handle places c now ctx q).2 now ctx q).1.suggestions
    ∧ (handle places c now ctx q).1.intent =
      (handle places (handle places c now ctx q).2 now ctx q).1.intent
    ∧ (handle places c now ctx q).1.next_slot =
      (handle places (handle places c now ctx q).2 now ctx q).1.next_slot := by
  by_cases he : tokensOf q = []
  · simp [handle, he]
  · cases hg : cacheGet c now (cacheKey ctx q) with
    | some r => simp [handle, he, hg]
    | none =>
      have hsecond :
          cacheGet (cachePut c now (cacheKey ctx q) (computeResponse places q)) now
            (cacheKey ctx q) = some (computeResponse places q) := by
        unfold cacheGet cachePut
        rw [List.find?_cons_of_pos c (by simp)]
        simp
      simp [handle, he, hg, hsecond]

theorem filter_selectable_map_mkSel (s : Slot) (l : List String) :
    ((l.map (mkSel s)).filter (fun x => x.selectable)).length = l.length := by
  induction l with
  | nil => rfl
  | cons a t ih => simpa [mkSel] using ih

/-- Claim C8: the generator emits at most 8 selectable suggestions, the
front-end displays only the first 8 suggestions, and number-key
selection only reaches indices below 8. -/
theorem suggestion_display_limit :
    (∀ (places : List String) (m : MatchResult),
        ((generate places m).filter (fun x => x.selectable)).length ≤ 8)
    ∧ (∀ l : List Suggestion, (displayedSuggestions l).length ≤ 8)
    ∧ (∀ (c : Char) (i : Nat), digitKeyIndex c = some i → i < 8) := by
  refine ⟨?_, ?_, ?_⟩
  · intro places m
    unfold generate
    cases hns : m.next_slot with
    | none => simp
    | some s =>
      have h1 : ((((selectablePool places m.entities s).take 8).map (mkSel s)).filter
          (fun x => x.selectable)).length ≤ 8 := by
        rw [filter_selectable_map_mkSel]
        exact List.length_take_le 8 (selectablePool places m.entities s)
      simpa [mkPlaceholder] using h1
  · intro l
    exact List.length_take_le 8 l
  · intro c i h
    unfold digitKeyIndex at h
    split_ifs at h with hc
    cases h
    omega

/-- Witness for C8: the "3" key selects index 2, which is below 8. -/
theorem suggestion_display_limit_witness :
    digitKeyIndex '3' = some 2 ∧ 2 < 8 :=
  ⟨rfl, suggestion_display_limit.2.2 '3' 2 rfl⟩

theorem litAt_le (ci : Bool) (cs : List Char) (w : List Char) :
    ∀ i, i ≤ cs.length → litAt ci cs i w = true → i + w.length ≤ cs.length := by
  induction w with
  | nil => intro i hi _; simpa using hi
  | cons a ws ih =>
    intro i hi h
    unfold litAt at h
    cases hc : cs[i]? with
    | none => rw [hc] at h; simp at h
    | some c =>
      rw [hc] at h
      simp only [Bool.and_eq_true] at h
      have hlt : i < cs.length := (List.getElem?_eq_some.mp hc).1
      have := ih (i + 1) hlt h.2
      simp only [List.length_cons]
      omega

theorem bnd_mLit (ci : Bool) (w : String) : BndM (mLit ci w) := by
  intro cs i n hi hn
  unfold mLit at hn
  split_ifs at hn with h
  · rcases List.mem_singleton.mp hn with rfl
    exact litAt_le ci cs w.data i hi h
  · simp at hn

theorem bnd_mChar (p : Char → Bool) : BndM (mChar p) := by
  intro cs i n hi hn
  unfold mChar at hn
  cases hc : cs[i]? with
  | none => rw [hc] at hn; simp at hn
  | some c =>
    rw [hc] at hn
    change n ∈ (if p c = true then [1] else []) at hn
    split_ifs at hn
    · rcases List.mem_singleton.mp hn with rfl
      have hlt : i < cs.length := (List.getElem?_eq_some.mp hc).1
      omega
    · simp at hn

theorem bnd_mWB : BndM mWB := by
  intro cs i n hi hn
  unfold mWB at hn
  split_ifs at hn
  · rcases List.mem_singleton.mp hn with rfl
    omega
  · simp at hn

theorem bnd_mAlt {a b : Matcher} (ha : BndM a) (hb : BndM b) : BndM (mAlt a b) := by
  intro cs i n hi hn
  rcases List.mem_append.mp hn with h | h
  · exact ha cs i n hi h
  · exact hb cs i n hi h

theorem bnd_mAlts {ms : List Matcher} (h : ∀ m ∈ ms, BndM m) : BndM (mAlts ms) := by
  intro cs i n hi hn
  rcases List.mem_flatMap.mp hn with ⟨m, hm, hn'⟩
  exact h m hm cs i n hi hn'

theorem bnd_mSeq {a b : Matcher} (ha : BndM a) (hb : BndM b) : BndM (mSeq a b) := by
  intro cs i n hi hn
  rcases List.mem_flatMap.mp hn with ⟨n1, h1, hn'⟩
  rcases List.mem_map.mp hn' with ⟨k, hk, rfl⟩
  have hi1 := ha cs i n1 hi h1
  have := hb cs (i + n1) k hi1 hk
  omega

theorem bnd_mOpt {a : Matcher} (ha : BndM a) : BndM (mOpt a) := by
  intro cs i n hi hn
  rcases List.mem_append.mp hn with h | h
  · exact ha cs i n hi h
  · rcases List.mem_singleton.mp h with rfl
    omega

theorem countWhileAux_le (p : Char → Bool) (l : List Char) :
    countWhileAux p l ≤ l.length := by
  induction l with
  | nil => simp [countWhileAux]
  | cons c t ih =>
    unfold countWhileAux
    split_ifs
    · simp only [List.length_cons]
      omega
    · simp

theorem bnd_mRep1 (p : Char → Bool) : BndM (mRep1 p) := by
  intro cs i n hi hn
  unfold mRep1 at hn
  rcases List.mem_map.mp hn with ⟨j, _, rfl⟩
  have hk := countWhileAux_le p (cs.drop i)
  rw [List.length_drop] at hk
  omega

theorem bnd_mRep0 (p : Char → Bool) : BndM (mRep0 p) := by
  intro cs i n hi hn
  unfold mRep0 at hn
  rcases List.mem_map.mp hn with ⟨j, _, rfl⟩
  have hk := countWhileAux_le p (cs.drop i)
  rw [List.length_drop] at hk
  omega

theorem bnd_mStarAux {a : Matcher} (ha : BndM a) :
    ∀ (f : Nat) (cs : List Char) (i n : Nat), i ≤ cs.length → n ∈ mStarAux a f cs i →
      i + n ≤ cs.length := by
  intro f
  induction f with
  | zero =>
    intro cs i n hi hn
    rcases List.mem_singleton.mp hn with rfl
    omega
  | succ f ih =>
    intro cs i n hi hn
    unfold mStarAux at hn
    rcases List.mem_append.mp hn with h | h
    · rcases List.mem_flatMap.mp h with ⟨n1, h1, hn'⟩
      rcases List.mem_map.mp hn' with ⟨k, hk, rfl⟩
      have h1' : n1 ∈ a cs i := (List.mem_filter.mp h1).1
      have hi1 := ha cs i n1 hi h1'
      have := ih cs (i + n1) k hi1 hk
      omega
    · rcases List.mem_singleton.mp h with rfl
      omega

theorem bnd_mStar {a : Matcher} (ha : BndM a) : BndM (mStar a) := by
  intro cs i n hi hn
  exact bnd_mStarAux ha _ cs i n hi hn

theorem bnd_kwAlt (ws : List String) : BndM (kwAlt ws) := by
  apply bnd_mAlts
  intro m hm
  rcases List.mem_map.mp hm with ⟨w, _, rfl⟩
  exact bnd_mLit true w

theorem bnd_wordPat (ws : List String) : BndM (wordPat ws) :=
  bnd_mSeq bnd_mWB (bnd_mSeq (bnd_kwAlt ws) bnd_mWB)

theorem bnd_d12 : BndM d12 := bnd_mSeq (bnd_mChar _) (bnd_mOpt (bnd_mChar _))

theorem bnd_d24 : BndM d24 :=
  bnd_mSeq (bnd_mChar _) (bnd_mSeq (bnd_mChar _)
    (bnd_mOpt (bnd_mSeq (bnd_mChar _) (bnd_mOpt (bnd_mChar _)))))

theorem bnd_upperWord : BndM upperWord := bnd_mSeq (bnd_mChar _) (bnd_mRep1 _)

theorem pos_mSeq_left {a b : Matcher} (ha : PosM a) : PosM (mSeq a b) := by
  intro cs i n hn
  rcases List.mem_flatMap.mp hn with ⟨n1, h1, hn'⟩
  rcases List.mem_map.mp hn' with ⟨k, _, rfl⟩
  have := ha cs i n1 h1
  omega

theorem pos_mSeq_right {a b : Matcher} (hb : PosM b) : PosM (mSeq a b) := by
  intro cs i n hn
  rcases List.mem_flatMap.mp hn with ⟨n1, h1, hn'⟩
  rcases List.mem_map.mp hn' with ⟨k, hk, rfl⟩
  have := hb cs (i + n1) k hk
  omega

theorem pos_mAlt {a b : Matcher} (ha : PosM a) (hb : PosM b) : PosM (mAlt a b) := by
  intro cs i n hn
  rcases List.mem_append.mp hn with h | h
  · exact ha cs i n h
  · exact hb cs i n h

theorem pos_mAlts {ms : List Matcher} (h : ∀ m ∈ ms, PosM m) : PosM (mAlts ms) := by
  intro cs i n hn
  rcases List.mem_flatMap.mp hn with ⟨m, hm, hn'⟩
  exact h m hm cs i n hn'

theorem pos_mLit (ci : Bool) (w : String) (hw : w.data ≠ []) : PosM (mLit ci w) := by
  intro cs i n hn
  unfold mLit at hn
  split_ifs at hn
  · rcases List.mem_singleton.mp hn with rfl
    exact List.length_pos.mpr hw
  · simp at hn

theorem pos_mChar (p : Char → Bool) : PosM (mChar p) := by
  intro cs i n hn
  unfold mChar at hn
  cases hc : cs[i]? with
  | none => rw [hc] at hn; simp at hn
  | some c =>
    rw [hc] at hn
    change n ∈ (if p c = true then [1] else []) at hn
    split_ifs at hn
    · rcases List.mem_singleton.mp hn with rfl
      omega
    · simp at hn

theorem pos_mRep1 (p : Char → Bool) : PosM (mRep1 p) := by
  intro cs i n hn
  unfold mRep1 at hn
  rcases List.mem_map.mp hn with ⟨j, hj, rfl⟩
  have := List.mem_range.mp hj
  omega

theorem pos_kwAlt (ws : List String) (h : ∀ w ∈ ws, w.data ≠ []) : PosM (kwAlt ws) := by
  apply pos_mAlts
  intro m hm
  rcases List.mem_map.mp hm with ⟨w, hw, rfl⟩
  exact pos_mLit true w (h w hw)

theorem pos_wordPat (ws : List String) (h : ∀ w ∈ ws, w.data ≠ []) : PosM (wordPat ws) :=
  pos_mSeq_right (pos_mSeq_left (pos_kwAlt ws h))

theorem pos_d12 : PosM d12 := pos_mSeq_left (pos_mChar _)

theorem allPatterns_ok : ∀ pt ∈ allPatterns, BndM pt.1 ∧ PosM pt.1 := by
  intro pt hpt
  simp only [allPatterns, List.mem_cons, List.not_mem_nil, or_false] at hpt
  rcases hpt with rfl | rfl | rfl | rfl | rfl | rfl | rfl | rfl | rfl | rfl | rfl | rfl | rfl | rfl
  · exact ⟨bnd_wordPat _, pos_wordPat _ (by decide)⟩
  · exact ⟨bnd_wordPat _, pos_wordPat _ (by decide)⟩
  · exact ⟨bnd_wordPat _, pos_wordPat _ (by decide)⟩
  · exact ⟨bnd_wordPat _, pos_wordPat _ (by decide)⟩
  · exact ⟨bnd_wordPat _, pos_wordPat _ (by decide)⟩
  · exact ⟨bnd_mSeq bnd_mWB (bnd_mSeq (bnd_kwAlt _)
        (bnd_mSeq (bnd_mRep1 _) (bnd_mSeq (bnd_kwAlt _) bnd_mWB))),
      pos_mSeq_right (pos_mSeq_left (pos_kwAlt _ (by decide)))⟩
  · exact ⟨bnd_wordPat _, pos_wordPat _ (by decide)⟩
  · exact ⟨bnd_wordPat _, pos_wordPat _ (by decide)⟩
  · exact ⟨bnd_mSeq bnd_mWB (bnd_mSeq bnd_d12
        (bnd_mSeq (bnd_mRep1 _) (bnd_mSeq (bnd_kwAlt _) bnd_mWB))),
      pos_mSeq_right (pos_mSeq_left pos_d12)⟩
  · exact ⟨bnd_mSeq bnd_mWB (bnd_mSeq bnd_d12 (bnd_mSeq (bnd_mChar _)
        (bnd_mSeq bnd_d12 (bnd_mSeq (bnd_mChar _) (bnd_mSeq bnd_d24 bnd_mWB))))),
      pos_mSeq_right (pos_mSeq_left pos_d12)⟩
  · exact ⟨bnd_wordPat _, pos_wordPat _ (by decide)⟩
  · exact ⟨bnd_mSeq bnd_mWB (bnd_mSeq bnd_d12 (bnd_mSeq (bnd_mLit _ _)
        (bnd_mSeq (bnd_mChar _) (bnd_mSeq (bnd_mChar _)
          (bnd_mSeq (bnd_mRep0 _) (bnd_mSeq (bnd_kwAlt _) bnd_mWB)))))),
      pos_mSeq_right (pos_mSeq_left pos_d12)⟩
  · exact ⟨bnd_mSeq bnd_mWB (bnd_mSeq (bnd_mAlt (bnd_mLit _ _) (bnd_mLit _ _))
        (bnd_mSeq (bnd_mRep1 _) (bnd_mSeq bnd_upperWord
          (bnd_mSeq (bnd_mStar (bnd_mSeq (bnd_mRep1 _) bnd_upperWord)) bnd_mWB)))),
      pos_mSeq_right (pos_mSeq_left
        (pos_mAlt (pos_mLit false "from" (by decide)) (pos_mLit false "to" (by decide))))⟩
  · exact ⟨bnd_wordPat _, pos_wordPat _ (by decide)⟩

theorem findAllAux_spans (m : Matcher) (hb : BndM m) (hp : PosM m) (cs : List Char) :
    ∀ (f i : Nat) (pr : Nat × Nat), pr ∈ findAllAux m cs f i →
      pr.1 < pr.2 ∧ pr.2 ≤ cs.length := by
  intro f
  induction f with
  | zero => intro i pr h; simp [findAllAux] at h
  | succ f ih =>
    intro i pr h
    unfold findAllAux at h
    by_cases hi : i ≤ cs.length
    · rw [if_pos hi] at h
      cases hh : (m cs i).head? with
      | none =>
        rw [hh] at h
        change pr ∈ findAllAux m cs f (i + 1) at h
        exact ih _ pr h
      | some n =>
        rw [hh] at h
        change pr ∈ (if n = 0 then findAllAux m cs f (i + 1)
          else (i, i + n) :: findAllAux m cs f (i + n)) at h
        have hmem : n ∈ m cs i := List.mem_of_mem_head? (by simp [hh])
        have hpos := hp cs i n hmem
        rw [if_neg (by omega)] at h
        rcases List.mem_cons.mp h with rfl | h'
        · exact ⟨by omega, hb cs i n hi hmem⟩
        · exact ih _ pr h'
    · rw [if_neg hi] at h
      simp at h

theorem findAll_spans (m : Matcher) (hb : BndM m) (hp : PosM m) (cs : List Char) :
    ∀ pr ∈ findAll m cs, pr.1 < pr.2 ∧ pr.2 ≤ cs.length := by
  intro pr hpr
  exact findAllAux_spans m hb hp cs _ 0 pr hpr

theorem foldl_addEntity_mem (P : Entity → Prop) :
    ∀ (ms acc : List Entity), (∀ e ∈ acc, P e) → (∀ e ∈ ms, P e) →
      ∀ e ∈ ms.foldl addEntity acc, P e := by
  intro ms
  induction ms with
  | nil => intro acc hacc _ e he; exact hacc e he
  | cons a t ih =>
    intro acc hacc hms e he
    refine ih (addEntity acc a) ?_ (fun x hx => hms x (List.mem_cons_of_mem _ hx)) e he
    intro x hx
    unfold addEntity at hx
    split_ifs at hx
    · exact hacc x hx
    · rcases List.mem_append.mp hx with h | h
      · exact hacc x h
      · rcases List.mem_singleton.mp h with rfl
        exact hms _ (List.mem_cons_self _ _)

theorem outer_fold_mem (cs : List Char) :
    ∀ (pats : List (Matcher × String)) (acc : List Entity),
      (∀ pt ∈ pats, BndM pt.1 ∧ PosM pt.1) →
      (∀ e ∈ acc, e.start < e.stop ∧ e.stop ≤ cs.length ∧ e.text = slice cs e.start e.stop) →
      ∀ e ∈ pats.foldl
          (fun acc pt => (matchesToEntities cs pt.2 (findAll pt.1 cs)).foldl addEntity acc)
          acc,
        e.start < e.stop ∧ e.stop ≤ cs.length ∧ e.text = slice cs e.start e.stop := by
  intro pats
  induction pats with
  | nil => intro acc _ hacc e he; exact hacc e he
  | cons p t ih =>
    intro acc hok hacc e he
    refine ih _ (fun pt h => hok pt (List.mem_cons_of_mem _ h)) ?_ e he
    apply foldl_addEntity_mem _ _ _ hacc
    intro x hx
    rcases List.mem_map.mp hx with ⟨pr, hpr, rfl⟩
    have hokp := hok p (List.mem_cons_self _ _)
    have hsp := findAll_spans p.1 hokp.1 hokp.2 cs pr hpr
    exact ⟨hsp.1, hsp.2, rfl⟩

theorem parseEntitiesRaw_mem (cs : List Char) :
    ∀ e ∈ parseEntitiesRaw cs,
      e.start < e.stop ∧ e.stop ≤ cs.length ∧ e.text = slice cs e.start e.stop := by
  intro e he
  exact outer_fold_mem cs allPatterns [] allPatterns_ok (by simp) e he

/-- Claim C7: every entity returned by `parseEntities` has a span with
`0 ≤ start < end ≤ length` in the original (non-lowered) character
sequence, and its text is exactly the slice of the original input over
that span, as `match[0]` of a JavaScript regex is. -/
theorem parseEntities_span_spec (cs : List Char) :
    ∀ e ∈ parseEntities cs,
      e.start < e.stop ∧ e.stop ≤ cs.length ∧ e.text = slice cs e.start e.stop := by
  intro e he
  have hperm := List.perm_insertionSort (fun a b => a.start ≤ b.start) (parseEntitiesRaw cs)
  exact parseEntitiesRaw_mem cs e (hperm.mem_iff.mp he)

/-- Witness for C7: the query "fly" produces the intent entity with span
0..3 whose text is the slice of the input. -/
theorem parseEntities_span_spec_witness :
    (⟨"fly".data, "intent", 0, 3⟩ : Entity).start < (⟨"fly".data, "intent", 0, 3⟩ : Entity).stop
    ∧ (⟨"fly".data, "intent", 0, 3⟩ : Entity).stop ≤ ("fly".data).length
    ∧ (⟨"fly".data, "intent", 0, 3⟩ : Entity).text =
        slice "fly".data (⟨"fly".data, "intent", 0, 3⟩ : Entity).start
          (⟨"fly".data, "intent", 0, 3⟩ : Entity).stop :=
  parseEntities_span_spec "fly".data ⟨"fly".data, "intent", 0, 3⟩ (by decide)

theorem foldl_addEntity_pairwise :
    ∀ (ms acc : List Entity),
      acc.Pairwise (fun a b => ¬(a.start = b.start ∧ a.stop = b.stop)) →
      (ms.foldl addEntity acc).Pairwise (fun a b => ¬(a.start = b.start ∧ a.stop = b.stop)) := by
  intro ms
  induction ms with
  | nil => intro acc h; exact h
  | cons a t ih =>
    intro acc h
    apply ih
    unfold addEntity
    split_ifs with hdup
    · exact h
    · rw [List.pairwise_append]
      refine ⟨h, by simp, ?_⟩
      intro x hx y hy
      rcases List.mem_singleton.mp hy with rfl
      intro hc
      apply hdup
      refine List.any_eq_true.mpr ⟨x, hx, ?_⟩
      simp [hc.1, hc.2]

theorem outer_fold_pairwise (cs : List Char) :
    ∀ (pats : List (Matcher × String)) (acc : List Entity),
      acc.Pairwise (fun a b => ¬(a.start = b.start ∧ a.stop = b.stop)) →
      (pats.foldl
          (fun acc pt => (matchesToEntities cs pt.2 (findAll pt.1 cs)).foldl addEntity acc)
          acc).Pairwise (fun a b => ¬(a.start = b.start ∧ a.stop = b.stop)) := by
  intro pats
  induction pats with
  | nil => intro acc h; exact h
  | cons p t ih =>
    intro acc h
    exact ih _ (foldl_addEntity_pairwise _ _ h)

theorem parseEntitiesRaw_pairwise (cs : List Char) :
    (parseEntitiesRaw cs).Pairwise (fun a b => ¬(a.start = b.start ∧ a.stop = b.stop)) :=
  outer_fold_pairwise cs allPatterns [] (by simp)

/-- Claim C9: the list returned by `parseEntities` is sorted by
non-decreasing start offset, and no two returned entities share both the
same start and the same end offset (duplicate spans are dropped at
collection time and the stable sort preserves this). -/
theorem parseEntities_sorted_nodup (cs : List Char) :
    (parseEntities cs).Sorted (fun a b => a.start ≤ b.start)
    ∧ (parseEntities cs).Pairwise (fun a b => ¬(a.start = b.start ∧ a.stop = b.stop)) := by
  constructor
  · exact List.sorted_insertionSort _ _
  · have hperm := List.perm_insertionSort (fun a b => a.start ≤ b.start) (parseEntitiesRaw cs)
    have hsym : ∀ {x y : Entity},
        ¬(x.start = y.start ∧ x.stop = y.stop) → ¬(y.start = x.start ∧ y.stop = x.stop) :=
      fun h hc => h ⟨hc.1.symm, hc.2.symm⟩
    exact (List.Perm.pairwise_iff hsym hperm).mpr (parseEntitiesRaw_pairwise cs)

end Impressor
